import Mathlib

/-!
Verification of the rdir directory-listing tool (src/main.rs) against its
natural-language specification.  The Rust functions relevant to the claims are
shallowly embedded as executable Lean definitions; machine strings are modelled
as lists of byte values (List Nat) where the Rust code works on bytes, and as
Lean strings / char lists where it works on chars.
-/

namespace Rdir

/-! ## Configuration (struct Options, main.rs lines 75-112) -/

/-- Embedding of struct Options (main.rs 75-112).  The color_scheme field is a
pair of fixed escape-string palettes irrelevant to the claims and is omitted. -/
structure Options where
  one_per_line : Bool
  all : Bool
  almost_all : Bool
  dirs_only : Bool
  files_only : Bool
  long : Bool
  report : Bool
  tree_depth : Option Nat
  git_status : Bool
  sort_dirs_first : Bool
  sort_files_first : Bool
  sort_time : Bool
  human_readable : Bool
deriving DecidableEq

/-- Default options (impl Default for Options, main.rs 93-112). -/
def Options.default : Options :=
  { one_per_line := false
    all := false
    almost_all := false
    dirs_only := false
    files_only := false
    long := false
    report := false
    tree_depth := none
    git_status := false
    sort_dirs_first := false
    sort_files_first := false
    sort_time := false
    human_readable := true }

/-! ## visible_len (main.rs 433-459) -/

/-- State-passing loop of fn visible_len (main.rs 433-459): first argument is
the remaining byte list, second is the in_escape flag. -/
def visible_len_go : List Nat → Bool → Nat
  | [], _ => 0
  | b :: rest, true =>
    if b = 109 then visible_len_go rest false else visible_len_go rest true
  | b :: rest, false =>
    if b = 27 then
      match rest with
      | [] => 1
      | b2 :: rest2 =>
        if b2 = 91 then visible_len_go rest2 true
        else 1 + visible_len_go (b2 :: rest2) false
    else 1 + visible_len_go rest false

/-- fn visible_len (main.rs 433-459): visible width of a byte string, skipping
ANSI escape sequences of the shape ESC (27) then 0x5b (91) up to and including
the terminating byte 109 (the letter m). -/
def visible_len (s : List Nat) : Nat := visible_len_go s false

/-! ## Git status parsing (main.rs 273-317) -/

/-- Embedding of enum GitState (main.rs 114-124). -/
inductive GitState where
  | Added
  | Modified
  | Deleted
  | Renamed
  | TypeChanged
  | Untracked
  | Ignored
  | None
deriving DecidableEq

/-- fn parse_git_state (main.rs 305-317): pick x unless it is a space, then
map the effective status character to a GitState. -/
def parse_git_state (x y : Char) : GitState :=
  let c := if x ≠ ' ' then x else y
  if c = 'A' ∨ c = 'C' then GitState.Added
  else if c = 'M' then GitState.Modified
  else if c = 'D' then GitState.Deleted
  else if c = 'R' then GitState.Renamed
  else if c = 'T' then GitState.TypeChanged
  else if c = '?' then GitState.Untracked
  else if c = '!' then GitState.Ignored
  else GitState.None

/-- remainder.find(" -> ") followed by taking the text after the arrow
(main.rs 291-295): returns the chars after the first occurrence of the
four-char arrow, or none when absent. -/
def find_arrow : List Char → Option (List Char)
  | [] => none
  | c :: rest =>
    if (c :: rest).take 4 = [' ', '-', '>', ' '] then some ((c :: rest).drop 4)
    else find_arrow rest

/-- One iteration of the line loop of fn git_statuses (main.rs 284-298): lines
shorter than 3 are skipped (none); otherwise the first two chars are the
status code, char 3 onward is the path, and the right-hand side of a
" -> " rename arrow, when present, is the effective path.  Byte indexing in
the Rust code is modelled as char indexing (identical on ASCII lines). -/
def git_status_line (line : List Char) : Option (List Char × GitState) :=
  if line.length < 3 then none
  else
    match line with
    | x :: y :: _ :: remainder =>
      let rel_path :=
        match find_arrow remainder with
        | some after => after
        | none => remainder
      some (rel_path, parse_git_state x y)
    | _ => none

/-! ## Timestamp formatting (main.rs 373-413) -/

/-- fn is_leap_year (main.rs 411-413), on the years reachable from
format_time (all at least 1970, so Nat arithmetic coincides with i32). -/
def is_leap_year (year : Nat) : Bool :=
  (year % 4 = 0 && year % 100 ≠ 0) || (year % 400 = 0)

/-- The year-length selection inside the year loop of fn format_time
(main.rs 389-390). -/
def year_days (year : Nat) : Nat := if is_leap_year year then 366 else 365

theorem year_days_pos (year : Nat) : 0 < year_days year := by
  unfold year_days; split <;> omega

/-- i32::MAX: the year counter of fn format_time is an i32 (main.rs 385).
Since the counter starts at 1970 and only increments, its reachable values
under checked arithmetic are exactly the naturals in [1970, i32::MAX], so the
counter is modelled as a Nat together with an explicit overflow check at the
increment. -/
def i32_max : Nat := 2147483647

/-- Fuel-indexed form of the year loop of fn format_time (main.rs 385-397):
each iteration consumes at least 365 days, so dayCount + 1 units of fuel are
always enough; the fuel-exhausted fallback is unreachable (see year_loop_eq,
which recovers the exact loop equation of the source).  none models the i32
overflow of the year += 1 increment (main.rs 393): a panic under checked
arithmetic, a wrap to a meaningless negative year otherwise. -/
def year_loop_f : Nat → Nat → Nat → Option (Nat × Nat)
  | 0, year, dayCount => some (year, dayCount)
  | fuel + 1, year, dayCount =>
    if dayCount ≥ year_days year then
      if year + 1 > i32_max then none
      else year_loop_f fuel (year + 1) (dayCount - year_days year)
    else some (year, dayCount)

/-- The year loop of fn format_time (main.rs 385-397): starting from 1970,
subtract whole-year day counts while at least a year of days remains.
Returns the resolved year and the days left inside it, or none when the i32
year counter overflows. -/
def year_loop (year dayCount : Nat) : Option (Nat × Nat) :=
  year_loop_f (dayCount + 1) year dayCount

theorem year_loop_f_fuel_irrel (f1 : Nat) : ∀ f2 year dayCount : Nat,
    dayCount < f1 → dayCount < f2 →
    year_loop_f f1 year dayCount = year_loop_f f2 year dayCount := by
  induction f1 with
  | zero => intro f2 year dayCount h1; omega
  | succ f ih =>
    intro f2 year dayCount h1 h2
    match f2, h2 with
    | f2 + 1, _ =>
      simp only [year_loop_f]
      split
      · have hp := year_days_pos year
        rename_i hge
        split
        · rfl
        · exact ih f2 (year + 1) (dayCount - year_days year) (by omega) (by omega)
      · rfl

/-- The fuel-indexed year loop satisfies exactly the loop equation of the
source (with none at the i32 overflow of the increment): with adequate fuel
the fallback branch never fires. -/
theorem year_loop_eq (year dayCount : Nat) :
    year_loop year dayCount =
      if dayCount ≥ year_days year then
        if year + 1 > i32_max then none
        else year_loop (year + 1) (dayCount - year_days year)
      else some (year, dayCount) := by
  show year_loop_f (dayCount + 1) year dayCount = _
  simp only [year_loop_f]
  split
  · rename_i hge
    have hp := year_days_pos year
    split
    · rfl
    · exact year_loop_f_fuel_irrel dayCount (dayCount - year_days year + 1)
        (year + 1) (dayCount - year_days year) (by omega) (by omega)
  · rfl

/-- Month lengths for a common year (main.rs 399). -/
def month_lengths : List Nat := [31, 28, 31, 30, 31, 30, 31, 31, 30, 31, 30, 31]

/-- Month lengths for a leap year (main.rs 400). -/
def month_lengths_leap : List Nat := [31, 29, 31, 30, 31, 30, 31, 31, 30, 31, 30, 31]

/-- The month loop of fn format_time (main.rs 402-406): walk the month-length
table subtracting whole months.  Running off the end of the table (which in
Rust would panic with an out-of-bounds index) is modelled as none; the result
carries the zero-based month index and the remaining zero-based day. -/
def month_loop : List Nat → Nat → Option (Nat × Nat)
  | [], _ => none
  | m :: rest, d =>
    if d ≥ m then (month_loop rest (d - m)).map (fun p => (p.1 + 1, p.2))
    else some (0, d)

/-- Zero-padding of Rust format specifiers 04 / 02 (main.rs 408). -/
def pad_zeros (w n : Nat) : String :=
  let s := toString n
  if s.length < w then String.mk (List.replicate (w - s.length) '0') ++ s else s

/-- fn format_time (main.rs 373-409) applied to a whole number of seconds
since the epoch (the value of duration.as_secs(), a u64; the i64 day_count
cannot itself overflow since u64 seconds give at most about 2.1e14 days).
none models the two failure modes of the source arithmetic: the i32 overflow
of the year counter, and the out-of-bounds month-table index that a day count
at or past the table total would cause. -/
def format_time (secs : Nat) : Option String :=
  let days := secs / 86400
  let remSecs := secs % 86400
  let hour := remSecs / 3600
  let minute := (remSecs % 3600) / 60
  match year_loop 1970 days with
  | none => none
  | some yd =>
    let months := if is_leap_year yd.1 then month_lengths_leap else month_lengths
    match month_loop months yd.2 with
    | some md =>
      some (pad_zeros 4 yd.1 ++ "-" ++ pad_zeros 2 (md.1 + 1) ++ "-" ++
        pad_zeros 2 (md.2 + 1) ++ " " ++ pad_zeros 2 hour ++ ":" ++ pad_zeros 2 minute)
    | none => none

/-- The duration_since handling at the top of fn format_time (main.rs 374-378):
a SystemTime is modelled as a signed offset of t nanoseconds from the Unix
epoch.  For t at least 0 duration_since succeeds with duration t; for negative
t it fails and e.duration() is the positive distance -t; as_secs divides the
nanosecond count by 10^9. -/
def format_time_at (t : Int) : Option String :=
  format_time (t.natAbs / 1000000000)

/-! ## The --tree flag and the mode selection of fn main (main.rs 162-183
and 217-233) -/

/-- s.find with the char 0x3d (=) followed by slicing off everything before
and including it (main.rs 165-166): the chars after the first equals sign,
or none when the string has no equals sign. -/
def after_eq : List Char → Option (List Char)
  | [] => none
  | c :: rest => if c = '=' then some rest else after_eq rest

/-- Digit-accumulation part of str::parse::<isize> (main.rs 169): none on an
empty string or any non-digit char. -/
def digits_val (cs : List Char) : Option Nat :=
  match cs with
  | [] => none
  | _ =>
    cs.foldl
      (fun acc c => acc.bind (fun a => if c.isDigit then some (a * 10 + (c.toNat - 48)) else none))
      (some 0)

/-- Model of str::parse::<isize> (main.rs 169) on a 64-bit target: an optional
sign followed by one or more digits, rejected when the value overflows the
isize range. -/
def parse_isize (cs : List Char) : Option Int :=
  match cs with
  | '-' :: rest =>
    (digits_val rest).bind (fun n => if (n : Int) ≤ 2 ^ 63 then some (-(n : Int)) else none)
  | '+' :: rest =>
    (digits_val rest).bind (fun n => if (n : Int) < 2 ^ 63 then some ((n : Int)) else none)
  | _ =>
    (digits_val cs).bind (fun n => if (n : Int) < 2 ^ 63 then some ((n : Int)) else none)

/-- The --tree match arm of fn main (main.rs 162-183), entered for any
argument starting with --tree: ok carries the tree_depth option written into
Options (none meaning the sentinel set for values at most 0), error models
the eprintln plus exit(1) paths. -/
def tree_flag_depth (s : String) : Except String (Option Nat) :=
  if s = "--tree" then Except.ok (some 3)
  else
    match after_eq s.data with
    | some val =>
      if val = [] then Except.ok (some 3)
      else
        match parse_isize val with
        | some num =>
          if num ≤ 0 then Except.ok none else Except.ok (some num.toNat)
        | none => Except.error ("Invalid depth for --tree")
    | none => Except.error ("Invalid syntax for --tree")

/-- The two top-level listing modes of fn main. -/
inductive Mode where
  | tree (depth : Nat)
  | flat
deriving DecidableEq

/-- usize::MAX on a 64-bit target (main.rs 230). -/
def usize_max : Nat := 2 ^ 64 - 1

/-- The per-path mode dispatch of fn main (main.rs 217-233): an if-let on
tree_depth selecting print_tree with the stored depth, an else-if retesting
tree_depth.is_some() selecting print_tree with unlimited depth usize::MAX,
and a final else selecting flat list_dir.  The same tree_depth value is
tested by both conditions, exactly as in the source, so the middle branch
is reachable only if the first failed yet is_some still holds. -/
def select_mode (td : Option Nat) : Mode :=
  if h : td.isSome then Mode.tree (td.get h)
  else if td.isSome then Mode.tree usize_max
  else Mode.flat

/-! ## Entries, counting and the shared directory-read loop
(list_dir main.rs 477-551, print_tree main.rs 907-981) -/

/-- File type of a metadata record as obtained from a non-following stat.
For a symlink, broken records whether fs::read_link succeeded and the target
does not exist (main.rs 512-517): a failing read_link counts as an intact
symlink because of the map_or(true, ..) default. -/
inductive FType where
  | dir
  | symlink (broken : Bool)
  | fifo
  | socket
  | blockDev
  | charDev
  | regular
deriving DecidableEq

def FType.is_dir : FType → Bool
  | FType.dir => true
  | _ => false

/-- The metadata fields consumed by the claims: file type and the modification
time (none models a failing metadata.modified(), replaced by the epoch at
use sites, main.rs 566-567). -/
structure EMeta where
  ftype : FType
  mtime : Option Int
deriving DecidableEq

/-- One raw read_dir item: its file name and its symlink_metadata result,
none modelling the Err(_) => continue branch (main.rs 489-492). -/
structure RawEntry where
  name : String
  meta : Option EMeta
deriving DecidableEq

/-- A retained entry (struct EntryInfo, main.rs 126-131, restricted to the
fields the claims consume). -/
structure Entry where
  name : String
  meta : EMeta
deriving DecidableEq

/-- struct Counts (main.rs 133-143). -/
structure Counts where
  dirs : Nat
  files : Nat
  symlinks : Nat
  pipes : Nat
  sockets : Nat
  block_devices : Nat
  char_devices : Nat
  broken_symlinks : Nat
deriving DecidableEq

/-- Counts::default() (main.rs 133). -/
def Counts.zero : Counts := ⟨0, 0, 0, 0, 0, 0, 0, 0⟩

/-- Sum of all Counts fields. -/
def total_counts (c : Counts) : Nat :=
  c.dirs + c.files + c.symlinks + c.pipes + c.sockets + c.block_devices +
    c.char_devices + c.broken_symlinks

/-- The per-entry classification that increments Counts (main.rs 510-538,
identically main.rs 940-968). -/
def count_entry (c : Counts) : FType → Counts
  | FType.dir => { c with dirs := c.dirs + 1 }
  | FType.symlink broken =>
    if broken then { c with broken_symlinks := c.broken_symlinks + 1 }
    else { c with symlinks := c.symlinks + 1 }
  | FType.fifo => { c with pipes := c.pipes + 1 }
  | FType.socket => { c with sockets := c.sockets + 1 }
  | FType.blockDev => { c with block_devices := c.block_devices + 1 }
  | FType.charDev => { c with char_devices := c.char_devices + 1 }
  | FType.regular => { c with files := c.files + 1 }

/-- One iteration of the read_dir loop shared verbatim by list_dir
(main.rs 477-551) and print_tree (main.rs 907-981): skip hidden names unless
--all, skip entries whose metadata read failed, skip non-directories under
--dirs, skip directories under --files, and only then classify the entry into
Counts and push it.  The git-state lookup and icon assignment of the loop do
not affect which entries are kept or counted and are omitted. -/
def collect_step (opts : Options) (acc : List Entry × Counts) (raw : RawEntry) :
    List Entry × Counts :=
  if !opts.all && raw.name.startsWith (".") then acc
  else
    match raw.meta with
    | none => acc
    | some md =>
      if opts.dirs_only && !md.ftype.is_dir then acc
      else if opts.files_only && md.ftype.is_dir then acc
      else (acc.1 ++ [⟨raw.name, md⟩], count_entry acc.2 md.ftype)

/-- The entry-collection phase of fn list_dir (main.rs 477-551). -/
def list_dir_collect (opts : Options) (raws : List RawEntry) : List Entry × Counts :=
  raws.foldl (collect_step opts) ([], Counts.zero)

/-- The entry-collection phase of fn print_tree (main.rs 907-981); the loop
body is identical to the one in list_dir. -/
def print_tree_collect (opts : Options) (raws : List RawEntry) : List Entry × Counts :=
  raws.foldl (collect_step opts) ([], Counts.zero)

/-- The per-entry keep-or-drop decision of the loop, as an Option: the
specification-level description of whether one raw entry is displayed. -/
def kept_step (opts : Options) (raw : RawEntry) : Option Entry :=
  if !opts.all && raw.name.startsWith (".") then none
  else
    match raw.meta with
    | none => none
    | some md =>
      if opts.dirs_only && !md.ftype.is_dir then none
      else if opts.files_only && md.ftype.is_dir then none
      else some ⟨raw.name, md⟩

/-- The subset of entries retained by the loop, written as a filterMap: the
specification-level description of which entries are displayed. -/
def kept_entries (opts : Options) (raws : List RawEntry) : List Entry :=
  raws.filterMap (kept_step opts)

/-! ## Sorting (list_dir main.rs 553-577, print_tree main.rs 983-1003) -/

/-- Lexicographic comparison of char lists by code point; agrees with Rust
String::cmp on the lowercased names compared here. -/
def lex_cmp : List Char → List Char → Ordering
  | [], [] => Ordering.eq
  | [], _ :: _ => Ordering.lt
  | _ :: _, [] => Ordering.gt
  | a :: xs, b :: ys =>
    match compare a.toNat b.toNat with
    | Ordering.eq => lex_cmp xs ys
    | o => o

/-- file_name().to_string_lossy().to_lowercase() (main.rs 574-575). -/
def lower_name (s : String) : List Char := s.data.map Char.toLower

/-- The comparator closure passed to sort_by in fn list_dir (main.rs 553-577):
optional directories-first grouping, optional files-first grouping, optional
newest-first time key (missing timestamps falling back to the epoch), then
case-insensitive name comparison. -/
def list_dir_cmp (opts : Options) (a b : Entry) : Ordering :=
  let aDir := a.meta.ftype.is_dir
  let bDir := b.meta.ftype.is_dir
  if opts.sort_dirs_first && aDir != bDir then
    if aDir then Ordering.lt else Ordering.gt
  else if opts.sort_files_first && aDir != bDir then
    if aDir then Ordering.gt else Ordering.lt
  else
    let timeOrd :=
      if opts.sort_time then compare (b.meta.mtime.getD 0) (a.meta.mtime.getD 0)
      else Ordering.eq
    match timeOrd with
    | Ordering.eq => lex_cmp (lower_name a.name) (lower_name b.name)
    | o => o

/-- The comparator closure passed to sort_by in fn print_tree
(main.rs 983-1003): directories always group first, unconditionally, then the
same time and name keys as flat mode. -/
def print_tree_cmp (opts : Options) (a b : Entry) : Ordering :=
  let aDir := a.meta.ftype.is_dir
  let bDir := b.meta.ftype.is_dir
  if aDir != bDir then
    if aDir then Ordering.lt else Ordering.gt
  else
    let timeOrd :=
      if opts.sort_time then compare (b.meta.mtime.getD 0) (a.meta.mtime.getD 0)
      else Ordering.eq
    match timeOrd with
    | Ordering.eq => lex_cmp (lower_name a.name) (lower_name b.name)
    | o => o

/-- Stable insertion into a sorted list: x goes before the first element it
does not strictly exceed under cmp. -/
def insert_by (cmp : Entry → Entry → Ordering) (x : Entry) : List Entry → List Entry
  | [] => [x]
  | y :: ys =>
    if cmp x y = Ordering.gt then y :: insert_by cmp x ys else x :: y :: ys

/-- Model of Vec::sort_by (a stable sort) as a stable insertion sort. -/
def sort_by (cmp : Entry → Entry → Ordering) (l : List Entry) : List Entry :=
  l.foldr (insert_by cmp) []

/-! ## Column layout (fn list_dir, main.rs 621-665).  Pre-rendered fragments
are byte strings (List Nat), possibly containing ANSI escapes. -/

/-- The max_len accumulation over all display strings (main.rs 623-628). -/
def max_len (frags : List (List Nat)) : Nat :=
  frags.foldl (fun m s => max m (visible_len s)) 0

/-- let col_width = max_len + 2 (main.rs 636). -/
def col_width (frags : List (List Nat)) : Nat := max_len frags + 2

/-- The cols computation (main.rs 637-644): 1 when one-per-line is set, 1 when
col_width is 0, otherwise terminal width over col_width clamped up to 1. -/
def cols_of (onePerLine : Bool) (termWidth : Nat) (frags : List (List Nat)) : Nat :=
  if onePerLine then 1
  else if col_width frags = 0 then 1
  else
    let c := termWidth / col_width frags
    if c = 0 then 1 else c

/-- let rows = (len + cols - 1) / cols (main.rs 646). -/
def rows_of (cols n : Nat) : Nat := (n + cols - 1) / cols

/-- The inner loop building one output row (main.rs 648-662): for each column
c the fragment at linear index r + c * rows is appended, padded with spaces
(byte 32) to col_width unless c is the last column; absent indices append
nothing. -/
def build_row (frags : List (List Nat)) (colWidth cols rows r : Nat) : List Nat :=
  (List.range cols).foldl
    (fun line c =>
      match frags[r + c * rows]? with
      | some s =>
        line ++ s ++
          (if c + 1 < cols then List.replicate (colWidth - visible_len s) 32 else [])
      | none => line)
    []

/-- The column-layout output of fn list_dir (main.rs 636-664): the list of
rendered rows. -/
def render_columns (onePerLine : Bool) (termWidth : Nat) (frags : List (List Nat)) :
    List (List Nat) :=
  let cW := col_width frags
  let cols := cols_of onePerLine termWidth frags
  let rows := rows_of cols frags.length
  (List.range rows).map (build_row frags cW cols rows)

/-- The row count of the full layout configuration. -/
def layout_rows (onePerLine : Bool) (termWidth : Nat) (frags : List (List Nat)) : Nat :=
  rows_of (cols_of onePerLine termWidth frags) frags.length

/-- Declarative description of one layout cell, following the specification:
the fragment with linear index r + c * rows sits at row r, column c, padded
with spaces to the column width except in the last column; an index beyond
the fragment list gives an empty cell. -/
def cell_spec (frags : List (List Nat)) (colWidth cols rows r c : Nat) : List Nat :=
  match frags[r + c * rows]? with
  | some s =>
    if c + 1 < cols then s ++ List.replicate (colWidth - visible_len s) 32 else s
  | none => []

/-! ## ANSI chunk grammar for the visible-width claim -/

/-- A printable character byte: the ASCII printable range. -/
def is_printable (b : Nat) : Bool := 32 ≤ b && b ≤ 126

/-- The tail of a color escape sequence after ESC 0x5b: any bytes other than
109 (the letter m), terminated by exactly one 109. -/
def is_seq_tail : List Nat → Bool
  | [] => false
  | b :: rest => if b = 109 then rest.isEmpty else is_seq_tail rest

/-- A full ANSI color escape sequence: ESC (27), 0x5b (91), then a
109-terminated tail. -/
def is_color_seq : List Nat → Bool
  | b1 :: b2 :: rest => b1 == 27 && b2 == 91 && is_seq_tail rest
  | _ => false

/-- A fragment chunk: a single printable character, or a color escape
sequence. -/
def good_chunk : List Nat → Bool
  | [b] => is_printable b
  | c => is_color_seq c

/-- A chunk holding exactly one printable character. -/
def is_char_chunk : List Nat → Bool
  | [b] => is_printable b
  | _ => false

/-- The status-code table as the specification states it, keyed by the
effective status character. -/
def spec_state_table (c : Char) : GitState :=
  if c = 'A' ∨ c = 'C' then GitState.Added
  else if c = 'M' then GitState.Modified
  else if c = 'D' then GitState.Deleted
  else if c = 'R' then GitState.Renamed
  else if c = 'T' then GitState.TypeChanged
  else if c = '?' then GitState.Untracked
  else if c = '!' then GitState.Ignored
  else GitState.None

/-! ## Theorems -/

/-- Claim C2 (code_bug evidence): with --tree=0 or a negative depth the code
stores tree_depth = None, and the mode dispatch of fn main then selects the
flat listing, not an unlimited-depth tree; the middle dispatch branch that
would pass usize::MAX can never fire because it retests the same Option that
the first branch just found empty.  The depth-3 default for an omitted or
empty N does hold. -/
theorem tree_zero_selects_flat_listing :
    tree_flag_depth ("--tree=0") = Except.ok none ∧
    tree_flag_depth ("--tree=-5") = Except.ok none ∧
    select_mode none = Mode.flat ∧
    tree_flag_depth ("--tree") = Except.ok (some 3) ∧
    tree_flag_depth ("--tree=") = Except.ok (some 3) ∧
    select_mode (some 3) = Mode.tree 3 :=
  ⟨rfl, rfl, rfl, rfl, rfl, rfl⟩

/-- The three entries of the C4 scenario, in an arbitrary read order. -/
def c4_entries : List Entry :=
  [⟨"z", ⟨FType.dir, none⟩⟩, ⟨"B.txt", ⟨FType.regular, none⟩⟩,
   ⟨"a.txt", ⟨FType.regular, none⟩⟩]

/-- Claim C4 (counterexample): the default flat sort compares lowercased
names, so a.txt sorts before B.txt and the displayed order is not
B.txt, a.txt, z. -/
theorem default_sort_not_B_first :
    ¬ ((sort_by (list_dir_cmp Options.default) c4_entries).map Entry.name =
        ["B.txt", "a.txt", "z"]) := by
  decide

/-- Claim C4 (amended): under the default sort the order is a.txt, B.txt, z
(lowercased-name order), and with --sd the directory z sorts first, followed
by a.txt then B.txt. -/
theorem default_sort_order_scenario :
    (sort_by (list_dir_cmp Options.default) c4_entries).map Entry.name =
      ["a.txt", "B.txt", "z"] ∧
    (sort_by (list_dir_cmp { Options.default with sort_dirs_first := true })
        c4_entries).map Entry.name =
      ["z", "a.txt", "B.txt"] := by
  constructor <;> decide

/-- Claim C7: parse_git_state follows the status table on the effective
character (x unless x is a space, else y), and the two scenario lines parse
to Untracked at newfile.txt and Renamed keyed at the right-hand side of the
rename arrow. -/
theorem git_state_table_and_scenarios :
    (∀ x y : Char, x ≠ ' ' → parse_git_state x y = spec_state_table x) ∧
    (∀ y : Char, parse_git_state ' ' y = spec_state_table y) ∧
    git_status_line ("?? newfile.txt").data =
      some (("newfile.txt").data, GitState.Untracked) ∧
    git_status_line ("R  old.txt -> new.txt").data =
      some (("new.txt").data, GitState.Renamed) := by
  refine ⟨?_, ?_, by decide, by decide⟩
  · intro x y hx
    simp [parse_git_state, spec_state_table, hx]
  · intro y
    simp [parse_git_state, spec_state_table]

/-- Witness for the table part of C7 at concrete characters. -/
theorem git_state_table_witness :
    ('R' ≠ ' ') ∧ parse_git_state 'R' ' ' = spec_state_table 'R' :=
  ⟨by decide, (git_state_table_and_scenarios).1 'R' ' ' (by decide)⟩

/-- Claim C8: epoch-seconds 0 formats as 1970-01-01 00:00; is_leap_year is
exactly the Gregorian rule; and day 59 of 2024 (19723 days from the epoch to
2024-01-01, plus 59) resolves to February 29. -/
theorem format_time_epoch_and_leap :
    format_time 0 = some ("1970-01-01 00:00") ∧
    (∀ y : Nat, is_leap_year y = true ↔ ((y % 4 = 0 ∧ y % 100 ≠ 0) ∨ y % 400 = 0)) ∧
    format_time ((19723 + 59) * 86400) = some ("2024-02-29 00:00") := by
  refine ⟨by decide, ?_, by decide⟩
  intro y
  simp [is_leap_year]

theorem month_loop_isSome : ∀ (l : List Nat) (d : Nat), d < l.sum →
    (month_loop l d).isSome = true := by
  intro l
  induction l with
  | nil => intro d h; simp at h
  | cons m rest ih =>
    intro d h
    simp only [month_loop]
    split
    · rename_i hge
      cases hx : month_loop rest (d - m) with
      | none =>
        have := ih (d - m) (by simp [List.sum_cons] at h; omega)
        rw [hx] at this
        simp at this
      | some p => simp
    · simp

theorem year_days_le (year : Nat) : year_days year ≤ 366 := by
  unfold year_days; split <;> omega

theorem year_days_ge (year : Nat) : 365 ≤ year_days year := by
  unfold year_days; split <;> omega

theorem year_loop_f_total : ∀ fuel year dayCount : Nat, dayCount < fuel →
    dayCount < 365 * (i32_max - year + 1) →
    ∃ y d, year_loop_f fuel year dayCount = some (y, d) ∧ d < year_days y := by
  intro fuel
  induction fuel with
  | zero => intro year dayCount h1 h2; omega
  | succ f ih =>
    intro year dayCount h1 h2
    simp only [year_loop_f]
    have hi : i32_max = 2147483647 := rfl
    have h365 := year_days_ge year
    have h366 := year_days_le year
    by_cases hge : dayCount ≥ year_days year
    · rw [if_pos hge]
      have hov : ¬ (year + 1 > i32_max) := by omega
      rw [if_neg hov]
      exact ih (year + 1) (dayCount - year_days year) (by omega) (by omega)
    · rw [if_neg hge]
      exact ⟨year, dayCount, rfl, by omega⟩

theorem year_loop_f_overflow : ∀ fuel year dayCount : Nat, dayCount < fuel →
    year ≤ i32_max → 366 * (i32_max - year + 1) ≤ dayCount →
    year_loop_f fuel year dayCount = none := by
  intro fuel
  induction fuel with
  | zero => intro year dayCount h1 _ _; omega
  | succ f ih =>
    intro year dayCount h1 hy hbig
    simp only [year_loop_f]
    have hi : i32_max = 2147483647 := rfl
    have h365 := year_days_ge year
    have h366 := year_days_le year
    have hge : dayCount ≥ year_days year := by omega
    rw [if_pos hge]
    by_cases hov : year + 1 > i32_max
    · rw [if_pos hov]
    · rw [if_neg hov]
      exact ih (year + 1) (dayCount - year_days year) (by omega) (by omega) (by omega)

theorem year_loop_total (dayCount : Nat) (h : dayCount < 365 * 2147481678) :
    ∃ y d, year_loop 1970 dayCount = some (y, d) ∧ d < year_days y :=
  year_loop_f_total (dayCount + 1) 1970 dayCount (by omega)
    (by unfold i32_max; omega)

theorem year_loop_overflow_huge : year_loop 1970 (366 * 2147481678) = none :=
  year_loop_f_overflow (366 * 2147481678 + 1) 1970 (366 * 2147481678) (by omega)
    (by unfold i32_max; omega) (by unfold i32_max; omega)

theorem format_time_isSome_of_small (secs : Nat)
    (h : secs / 86400 < 365 * 2147481678) : (format_time secs).isSome = true := by
  obtain ⟨y, d, hy, hd⟩ := year_loop_total (secs / 86400) h
  have hsum : (if is_leap_year y then month_lengths_leap else month_lengths).sum =
      year_days y := by
    unfold year_days
    split <;> decide
  have hs := month_loop_isSome
    (if is_leap_year y then month_lengths_leap else month_lengths) d
    (by rw [hsum]; exact hd)
  simp only [format_time, hy]
  cases hml : month_loop
      (if is_leap_year y then month_lengths_leap else month_lengths) d with
  | none => rw [hml] at hs; simp at hs
  | some md => rfl

theorem format_time_none_of_year_overflow (secs : Nat)
    (h : year_loop 1970 (secs / 86400) = none) : format_time secs = none := by
  simp only [format_time, h]

/-- Claim C10 (counterexample): at the concrete time 366 * 2147481678 days
after the epoch (about 6.8e16 seconds, well within a SystemTime) the i32 year
counter of format_time is driven past i32::MAX before the day count is
exhausted, so formatting fails: the claimed all-input totality is false. -/
theorem format_time_overflow_fails :
    (format_time_at ((366 * 2147481678 * 86400 * 1000000000 : Nat) : Int)).isSome =
      false := by
  have hdays : ((366 * 2147481678 * 86400 * 1000000000 : Nat) : Int).natAbs /
      1000000000 / 86400 = 366 * 2147481678 := by
    rw [Int.natAbs_ofNat]
  unfold format_time_at
  rw [format_time_none_of_year_overflow]
  · rfl
  · rw [hdays]
    exact year_loop_overflow_huge

/-- Claim C10 (amended): timestamp formatting of a time t nanoseconds before
the epoch produces the same string as the time t nanoseconds after it
(pre-epoch times are rendered from the absolute distance to the epoch), for
every t without exception; and formatting succeeds whenever the distance to
the epoch is small enough for the resolved year to stay within the i32 year
counter - in particular for day counts below 365 * 2147481678 (about 6.8e16
seconds).  Beyond that horizon the year += 1 increment overflows i32, so
totality does not extend to all inputs. -/
theorem format_time_symmetric_and_bounded_total :
    ∀ t : Int, format_time_at (-t) = format_time_at t ∧
      (t.natAbs / 1000000000 / 86400 < 365 * 2147481678 →
        (format_time_at t).isSome = true) := by
  intro t
  constructor
  · simp [format_time_at, Int.natAbs_neg]
  · intro h
    exact format_time_isSome_of_small _ h

/-- Witness for the bounded-totality part of C10 at the epoch itself. -/
theorem format_time_symmetric_and_bounded_total_witness :
    ((0 : Int).natAbs / 1000000000 / 86400 < 365 * 2147481678) ∧
    (format_time_at 0).isSome = true :=
  ⟨by decide, (format_time_symmetric_and_bounded_total 0).2 (by decide)⟩

theorem total_counts_zero : total_counts Counts.zero = 0 := rfl

theorem total_counts_count_entry (c : Counts) (ft : FType) :
    total_counts (count_entry c ft) = total_counts c + 1 := by
  cases ft with
  | symlink broken =>
    cases broken <;> simp [count_entry, total_counts] <;> omega
  | dir => simp [count_entry, total_counts]; omega
  | fifo => simp [count_entry, total_counts]; omega
  | socket => simp [count_entry, total_counts]; omega
  | blockDev => simp [count_entry, total_counts]; omega
  | charDev => simp [count_entry, total_counts]; omega
  | regular => simp [count_entry, total_counts]; omega

theorem total_counts_foldl (fts : List FType) : ∀ c : Counts,
    total_counts (fts.foldl count_entry c) = total_counts c + fts.length := by
  induction fts with
  | nil => intro c; simp
  | cons ft rest ih =>
    intro c
    simp only [List.foldl_cons, List.length_cons]
    rw [ih, total_counts_count_entry]
    omega

theorem collect_foldl (opts : Options) (raws : List RawEntry) : ∀ (l : List Entry) (c : Counts),
    raws.foldl (collect_step opts) (l, c) =
      (l ++ kept_entries opts raws,
        ((kept_entries opts raws).map (fun e => e.meta.ftype)).foldl count_entry c) := by
  induction raws with
  | nil => intro l c; simp [kept_entries]
  | cons raw rest ih =>
    intro l c
    simp only [kept_entries] at ih ⊢
    by_cases h1 : (!opts.all && raw.name.startsWith (".")) = true
    · have hstep : collect_step opts (l, c) raw = (l, c) := by
        simp [collect_step, h1]
      have hk : kept_step opts raw = none := by
        simp [kept_step, h1]
      rw [List.foldl_cons, hstep, ih, List.filterMap_cons, hk]
    · rw [Bool.not_eq_true] at h1
      cases hmd : raw.meta with
      | none =>
        have hstep : collect_step opts (l, c) raw = (l, c) := by
          simp [collect_step, h1, hmd]
        have hk : kept_step opts raw = none := by
          simp [kept_step, h1, hmd]
        rw [List.foldl_cons, hstep, ih, List.filterMap_cons, hk]
      | some md =>
        by_cases h2 : (opts.dirs_only && !md.ftype.is_dir) = true
        · have hstep : collect_step opts (l, c) raw = (l, c) := by
            simp [collect_step, h1, hmd, h2]
          have hk : kept_step opts raw = none := by
            simp [kept_step, h1, hmd, h2]
          rw [List.foldl_cons, hstep, ih, List.filterMap_cons, hk]
        · rw [Bool.not_eq_true] at h2
          by_cases h3 : (opts.files_only && md.ftype.is_dir) = true
          · have hstep : collect_step opts (l, c) raw = (l, c) := by
              simp [collect_step, h1, hmd, h2, h3]
            have hk : kept_step opts raw = none := by
              simp [kept_step, h1, hmd, h2, h3]
            rw [List.foldl_cons, hstep, ih, List.filterMap_cons, hk]
          · rw [Bool.not_eq_true] at h3
            have hstep : collect_step opts (l, c) raw =
                (l ++ [⟨raw.name, md⟩], count_entry c md.ftype) := by
              simp [collect_step, h1, hmd, h2, h3]
            have hk : kept_step opts raw = some ⟨raw.name, md⟩ := by
              simp [kept_step, h1, hmd, h2, h3]
            rw [List.foldl_cons, hstep, ih, List.filterMap_cons, hk]
            simp [List.append_assoc]

/-- Claim C1 (amended): in both flat and tree mode the loop counts exactly the
entries it retains for display: Counts accumulates one increment per entry
that passes the hidden filter, the metadata read, and the dirs-only /
files-only filters, and entries excluded by the type filters are not counted
at all. -/
theorem counts_equal_kept_entries :
    ∀ (opts : Options) (raws : List RawEntry),
      print_tree_collect opts raws = list_dir_collect opts raws ∧
      list_dir_collect opts raws =
        (kept_entries opts raws,
          ((kept_entries opts raws).map (fun e => e.meta.ftype)).foldl count_entry
            Counts.zero) ∧
      total_counts (list_dir_collect opts raws).2 =
        (list_dir_collect opts raws).1.length := by
  intro opts raws
  have h := collect_foldl opts raws [] Counts.zero
  refine ⟨rfl, by simpa [list_dir_collect] using h, ?_⟩
  rw [list_dir_collect, h]
  simp [total_counts_foldl, total_counts_zero]

/-- Claim C3 (counterexample): with default options (no --sd, no --sf) the two
comparators order a file named b.txt and a directory named z differently -
flat mode sorts by name, tree mode puts the directory first - so tree mode
does not reproduce the flat-mode ordering. -/
def c3_entries : List Entry :=
  [⟨"b.txt", ⟨FType.regular, none⟩⟩, ⟨"z", ⟨FType.dir, none⟩⟩]

theorem tree_order_differs_from_flat :
    ¬ ((sort_by (print_tree_cmp Options.default) c3_entries).map Entry.name =
        (sort_by (list_dir_cmp Options.default) c3_entries).map Entry.name) := by
  decide

/-- Claim C3 (amended): the tree-mode comparator behaves exactly like the
flat-mode comparator run with directories-first grouping forced on and
files-first grouping ignored; the two agree in general only under --sd. -/
theorem tree_cmp_is_flat_cmp_dirs_first :
    ∀ (opts : Options) (a b : Entry),
      print_tree_cmp opts a b =
        list_dir_cmp
          { opts with sort_dirs_first := true, sort_files_first := false } a b := by
  intro opts a b
  unfold print_tree_cmp list_dir_cmp
  by_cases h : (a.meta.ftype.is_dir != b.meta.ftype.is_dir) = true <;> simp [h]


/-- The options of the C1 counterexample: --dirs with --report (and --all so
the hidden filter is passed trivially). -/
def c1_opts : Options :=
  { Options.default with dirs_only := true, report := true, all := true }

/-- A plain regular file, visible, with readable metadata. -/
def c1_file : RawEntry := ⟨"a.txt", some ⟨FType.regular, none⟩⟩

/-- Claim C1 (counterexample): under --dirs --report, a regular file passes
the hidden filter yet is never counted - the whole Counts stays zero, whereas
the claim requires this entry to be counted exactly once. -/
theorem dirs_only_does_not_count_files :
    (!c1_opts.all && ("a.txt").startsWith (".")) = false ∧
    (list_dir_collect c1_opts [c1_file]).2 = Counts.zero ∧
    total_counts (list_dir_collect c1_opts [c1_file]).2 ≠ 1 := by
  refine ⟨by decide, by decide, by decide⟩



theorem seq_tail_skip : ∀ (t js : List Nat), is_seq_tail t = true →
    visible_len_go (t ++ js) true = visible_len_go js false := by
  intro t
  induction t with
  | nil => intro js h; simp [is_seq_tail] at h
  | cons b rest ih =>
    intro js h
    simp only [is_seq_tail] at h
    by_cases hb : b = 109
    · rw [if_pos hb] at h
      have hrest : rest = [] := by
        cases rest with
        | nil => rfl
        | cons x xs => simp [List.isEmpty] at h
      subst hrest hb
      simp [visible_len_go]
    · rw [if_neg hb] at h
      simp only [List.cons_append, visible_len_go, if_neg hb]
      exact ih js h

theorem color_seq_skip : ∀ (c js : List Nat), is_color_seq c = true →
    visible_len_go (c ++ js) false = visible_len_go js false := by
  intro c js h
  cases c with
  | nil => simp [is_color_seq] at h
  | cons b1 r1 =>
    cases r1 with
    | nil => simp [is_color_seq] at h
    | cons b2 t =>
      simp only [is_color_seq, Bool.and_eq_true, beq_iff_eq] at h
      obtain ⟨⟨hb1, hb2⟩, ht⟩ := h
      subst hb1 hb2
      simp only [List.cons_append, visible_len_go, if_pos rfl]
      exact seq_tail_skip t js ht

/-- Claim C6: for any string assembled from printable characters and ANSI
color escape sequences (ESC 0x5b ... m), in any interleaving, visible_len
returns exactly the number of printable characters. -/
theorem visible_len_counts_printables :
    ∀ chunks : List (List Nat),
      (∀ c ∈ chunks, good_chunk c = true) →
      visible_len chunks.flatten = List.countP is_char_chunk chunks := by
  intro chunks
  induction chunks with
  | nil => intro h; rfl
  | cons c cs ih =>
    intro h
    have hc : good_chunk c = true := h c (List.mem_cons_self c cs)
    have hcs : ∀ x ∈ cs, good_chunk x = true :=
      fun x hx => h x (List.mem_cons_of_mem c hx)
    have hih : visible_len_go cs.flatten false = List.countP is_char_chunk cs := ih hcs
    have hjoin : (c :: cs).flatten = c ++ cs.flatten := rfl
    simp only [visible_len, hjoin]
    cases c with
    | nil =>
      have : is_color_seq ([] : List Nat) = true := hc
      simp [is_color_seq] at this
    | cons b t =>
      cases t with
      | nil =>
        have hp : is_printable b = true := hc
        have hb27 : ¬ (b = 27) := by
          simp only [is_printable, Bool.and_eq_true, decide_eq_true_eq] at hp
          omega
        have hgo : ∀ r : List Nat,
            visible_len_go (b :: r) false = 1 + visible_len_go r false := by
          intro r
          cases r <;> simp [visible_len_go, hb27]
        have hone : is_char_chunk [b] = true := hp
        rw [List.singleton_append, hgo, hih, List.countP_cons, hone]
        simp
        omega
      | cons b2 t2 =>
        have hcol : is_color_seq (b :: b2 :: t2) = true := hc
        have hzero : is_char_chunk (b :: b2 :: t2) = false := rfl
        rw [color_seq_skip _ _ hcol, hih, List.countP_cons, hzero]
        simp

/-- A concrete interleaving for the C6 witness: color, H, i, color. -/
def c6_chunks : List (List Nat) :=
  [[27, 91, 51, 52, 109], [72], [105], [27, 91, 48, 109]]

/-- Witness for C6 at a concrete interleaving of two printable characters and
two color sequences. -/
theorem visible_len_counts_printables_witness :
    (∀ c ∈ c6_chunks, good_chunk c = true) ∧
    visible_len c6_chunks.flatten = List.countP is_char_chunk c6_chunks :=
  ⟨by decide, visible_len_counts_printables c6_chunks (by decide)⟩



theorem foldl_max_init_le (l : List (List Nat)) : ∀ a : Nat,
    a ≤ l.foldl (fun m s => max m (visible_len s)) a := by
  induction l with
  | nil => intro a; simp
  | cons x xs ih =>
    intro a
    simp only [List.foldl_cons]
    exact le_trans (Nat.le_max_left _ _) (ih _)

theorem visible_len_le_foldl_max (l : List (List Nat)) : ∀ (a : Nat) (s : List Nat),
    s ∈ l → visible_len s ≤ l.foldl (fun m s => max m (visible_len s)) a := by
  induction l with
  | nil => intro a s h; simp at h
  | cons x xs ih =>
    intro a s h
    rcases List.mem_cons.mp h with h1 | h2
    · subst h1
      simp only [List.foldl_cons]
      exact le_trans (Nat.le_max_right _ _) (foldl_max_init_le xs _)
    · exact ih _ s h2

theorem cols_of_pos (opl : Bool) (term : Nat) (frags : List (List Nat)) :
    1 ≤ cols_of opl term frags := by
  unfold cols_of
  split
  · exact Nat.le_refl 1
  · split
    · exact Nat.le_refl 1
    · simp only []
      split
      · exact Nat.le_refl 1
      · rename_i hc
        exact Nat.pos_of_ne_zero hc

/-- Claim C9: the column width is the maximum visible fragment width plus 2,
hence at least 2 and nonzero (the col_width == 0 branch can never be taken),
it bounds the visible length of every fragment in the batch (so the padding
subtraction col_width - vis_len cannot underflow), and the column count is
always at least 1 (the division never divides by zero). -/
theorem column_width_bounds :
    ∀ (frags : List (List Nat)) (termWidth : Nat) (opl : Bool) (s : List Nat),
      s ∈ frags →
      col_width frags = max_len frags + 2 ∧
      2 ≤ col_width frags ∧
      col_width frags ≠ 0 ∧
      visible_len s ≤ max_len frags ∧
      visible_len s + 2 ≤ col_width frags ∧
      1 ≤ cols_of opl termWidth frags := by
  intro frags term opl s hs
  have hmax : visible_len s ≤ max_len frags := visible_len_le_foldl_max frags 0 s hs
  refine ⟨rfl, by unfold col_width; omega, by unfold col_width; omega, hmax,
    by unfold col_width at *; omega, cols_of_pos opl term frags⟩

/-- Witness for C9 at a one-fragment batch. -/
theorem column_width_bounds_witness :
    (([97] : List Nat) ∈ [[97]] : Prop) ∧ 2 ≤ col_width [[97]] ∧
    visible_len [97] + 2 ≤ col_width [[97]] :=
  ⟨by decide, (column_width_bounds [[97]] 80 false [97] (by decide)).2.1,
    (column_width_bounds [[97]] 80 false [97] (by decide)).2.2.2.2.1⟩



theorem foldl_append_flatten (g : Nat → List Nat) : ∀ (l : List Nat) (acc : List Nat),
    l.foldl (fun line c => line ++ g c) acc = acc ++ (l.map g).flatten := by
  intro l
  induction l with
  | nil => intro acc; simp
  | cons x xs ih =>
    intro acc
    simp only [List.foldl_cons, List.map_cons, List.flatten_cons, ih,
      List.append_assoc]

theorem build_row_eq (frags : List (List Nat)) (cw cols rows r : Nat) :
    build_row frags cw cols rows r =
      ((List.range cols).map (cell_spec frags cw cols rows r)).flatten := by
  unfold build_row
  have hfun : (fun (line : List Nat) (c : Nat) =>
      match frags[r + c * rows]? with
      | some s =>
        line ++ s ++
          (if c + 1 < cols then List.replicate (cw - visible_len s) 32 else [])
      | none => line) =
      fun (line : List Nat) (c : Nat) => line ++ cell_spec frags cw cols rows r c := by
    funext line c
    cases hx : frags[r + c * rows]? with
    | none => simp [cell_spec, hx]
    | some v =>
      simp only [cell_spec, hx]
      by_cases hc : c + 1 < cols <;> simp [hc, List.append_assoc]
  rw [hfun, foldl_append_flatten]
  simp

theorem render_columns_eq (opl : Bool) (term : Nat) (frags : List (List Nat)) :
    render_columns opl term frags =
      (List.range (layout_rows opl term frags)).map
        (fun r => ((List.range (cols_of opl term frags)).map
          (cell_spec frags (col_width frags) (cols_of opl term frags)
            (layout_rows opl term frags) r)).flatten) := by
  unfold render_columns layout_rows
  simp only []
  congr 1
  funext r
  exact build_row_eq frags (col_width frags) (cols_of opl term frags)
    (rows_of (cols_of opl term frags) frags.length) r

theorem cols_of_false_eq_max (term : Nat) (frags : List (List Nat)) :
    cols_of false term frags = max 1 (term / col_width frags) := by
  have h2 : ¬ (col_width frags = 0) := by unfold col_width; omega
  unfold cols_of
  rw [if_neg (by simp), if_neg h2]
  simp only []
  by_cases hc : term / col_width frags = 0
  · rw [if_pos hc, hc]
    simp
  · rw [if_neg hc, Nat.max_eq_right (Nat.pos_of_ne_zero hc)]

theorem rows_of_ceil (cols n : Nat) (h : 0 < cols) :
    n ≤ rows_of cols n * cols ∧ rows_of cols n * cols < n + cols := by
  unfold rows_of
  constructor
  · have hd := Nat.div_add_mod (n + cols - 1) cols
    have hm := Nat.mod_lt (n + cols - 1) h
    rw [Nat.mul_comm cols ((n + cols - 1) / cols)] at hd
    omega
  · have hle := Nat.div_mul_le_self (n + cols - 1) cols
    omega

theorem occupancy_prefix (rows n : Nat) :
    ∀ r c r2 c2 : Nat, r2 < rows → (c2 < c ∨ (c2 = c ∧ r2 ≤ r)) →
      r + c * rows < n → r2 + c2 * rows < n := by
  intro r c r2 c2 hr2 hdisj hocc
  rcases hdisj with hlt | hpair
  · have h1 : (c2 + 1) * rows ≤ c * rows :=
      Nat.mul_le_mul_right rows (by omega)
    have h2 : (c2 + 1) * rows = c2 * rows + rows := by ring
    omega
  · obtain ⟨heq, hle⟩ := hpair
    subst heq
    omega

/-- Claim C5 (amended): the column layout uses column width max visible width
plus 2, column count 1 when one-per-line is set and otherwise terminal width
over column width clamped up to 1, a ceiling row count, column-major
placement of the fragment with linear index r + c * rows at row r column c
padded with spaces to the column width except in the last column; occupied
cells form a column-major prefix, so every column left of an occupied cell is
fully populated and rows shrink weakly from top to bottom (but a row other
than the last can still be short of the full column count). -/
theorem column_layout_shape :
    ∀ (frags : List (List Nat)) (termWidth : Nat) (opl : Bool),
      col_width frags = max_len frags + 2 ∧
      cols_of true termWidth frags = 1 ∧
      cols_of false termWidth frags = max 1 (termWidth / col_width frags) ∧
      frags.length ≤ layout_rows opl termWidth frags * cols_of opl termWidth frags ∧
      layout_rows opl termWidth frags * cols_of opl termWidth frags <
        frags.length + cols_of opl termWidth frags ∧
      render_columns opl termWidth frags =
        (List.range (layout_rows opl termWidth frags)).map
          (fun r => ((List.range (cols_of opl termWidth frags)).map
            (cell_spec frags (col_width frags) (cols_of opl termWidth frags)
              (layout_rows opl termWidth frags) r)).flatten) ∧
      (∀ r c r2 c2 : Nat, r2 < layout_rows opl termWidth frags →
        (c2 < c ∨ (c2 = c ∧ r2 ≤ r)) →
        r + c * layout_rows opl termWidth frags < frags.length →
        r2 + c2 * layout_rows opl termWidth frags < frags.length) := by
  intro frags term opl
  have hcols := cols_of_pos opl term frags
  have hceil := rows_of_ceil (cols_of opl term frags) frags.length hcols
  exact ⟨rfl, rfl, cols_of_false_eq_max term frags, hceil.1, hceil.2,
    render_columns_eq opl term frags,
    occupancy_prefix (layout_rows opl term frags) frags.length⟩

/-- Four one-byte fragments: with terminal width 9 they lay out in 3 columns
and 2 rows. -/
def c5_frags : List (List Nat) := [[97], [98], [99], [100]]

/-- Claim C5 (counterexample): with 4 fragments in 3 columns and 2 rows, the
first row (which is not the last row) holds only 2 of the 3 columns - cell
(0,2) would need linear index 4, beyond the fragment list - refuting that
every row except possibly the last is fully populated. -/
theorem row_population_fails :
    ¬ (∀ r, r + 1 < layout_rows false 9 c5_frags →
        ∀ c, c < cols_of false 9 c5_frags →
          r + c * layout_rows false 9 c5_frags < c5_frags.length) := by
  intro hall
  exact absurd (hall 0 (by decide) 2 (by decide)) (by decide)

/-- Witness for the occupancy part of C5: cell (1,1) is occupied, hence cell
(1,0) is as well. -/
theorem column_layout_shape_witness :
    1 < layout_rows false 9 c5_frags ∧
    1 + 1 * layout_rows false 9 c5_frags < c5_frags.length ∧
    1 + 0 * layout_rows false 9 c5_frags < c5_frags.length :=
  ⟨by decide, by decide,
    (column_layout_shape c5_frags 9 false).2.2.2.2.2.2 1 1 1 0 (by decide)
      (Or.inl (by decide)) (by decide)⟩


end Rdir
